import Mathlib

/-!
Shallow embedding of the rendering / pointer-interaction core of the
visidata repository (files visidata/cliptext.py and visidata/mouse.py),
together with theorems settling the frozen claims about it.

Characters are modelled as code points bundled with the Unicode attributes
the source queries through the unicodedata module (east_asian_width,
general category, combining class, name-starts-with-MODIFIER).  Strings are
lists of such characters.  Python ints are Int where sign matters, Nat for
width accumulators.  Option models Python None; truthiness tests are made
explicit at each use site, mirroring the source line by line.
-/

namespace VisiData

/-- East-Asian-width class of a code point, as returned by
unicodedata.east_asian_width: Ambiguous, Neutral, Wide, Fullwidth,
Narrow, Halfwidth. -/
inductive EAW
  | A | N | W | F | Na | H
deriving DecidableEq

/-- General category of a code point, as returned by unicodedata.category.
Only the categories the source tests are distinguished; all remaining
categories are collapsed into Other. -/
inductive GCat
  | Mn | Sk | Lm | Cc | Zs | Zl | Zp | Cs | Cf | Other
deriving DecidableEq

/-- A character: a code point together with the unicodedata attributes the
source consults.  combining is true when unicodedata.combining is nonzero;
nameIsModifier is true when unicodedata.name starts with MODIFIER. -/
structure UChar where
  code : Nat
  eaw : EAW
  cat : GCat
  combining : Bool
  nameIsModifier : Bool
deriving DecidableEq

/-- ZERO_WIDTH_CF from cliptext.py lines 19-38: the hand-maintained list of
zero-width / format / control code points. -/
def zeroWidthCodes : List Nat :=
  [0, 0x034F, 0x200B, 0x200C, 0x200D, 0x200E, 0x200F, 0x2028, 0x2029,
   0x202A, 0x202B, 0x202C, 0x202D, 0x202E, 0x2060, 0x2061, 0x2062, 0x2063]

/-- wcwidth from cliptext.py lines 40-53.  Python membership test
eaw in 'AN' holds exactly for the one-letter classes A and N (the
two-letter class Na is not a substring of 'AN'); eaw in 'WF' holds for W
and F. -/
def wcwidth (cc : UChar) (ambig : Nat) : Nat :=
  if cc.code ∈ zeroWidthCodes then 1
  else
    match cc.eaw with
    | EAW.A | EAW.N => if cc.cat = GCat.Mn then 1 else ambig
    | EAW.W | EAW.F => 2
    | _ => if ¬ cc.combining then 1 else 0

/-- Sum of wcwidth over a string: the raw per-character display width,
used to state loop invariants about the accumulators of the source. -/
def widthSum (ambig : Nat) (s : List UChar) : Nat :=
  (s.map (fun c => wcwidth c ambig)).sum

/-- Scan for the first closing bracket, returning the characters before it,
the closing bracket itself, and the characters after it.  Models the lazy
part of the internal markup regex: between the opening bracket-colon and
the first closing bracket there is no closing bracket. -/
def findClose : List UChar → Option (List UChar × UChar × List UChar)
  | [] => none
  | c :: cs =>
    if c.code = 0x5D then some ([], c, cs)
    else
      match findClose cs with
      | none => none
      | some (mid, cl, rest) => some (c :: mid, cl, rest)

/-- Leftmost match of the internal markup regex (cliptext.py line 10):
an opening bracket, a colon, a shortest run of non-closing-bracket
characters, a closing bracket.  Returns (text before the match, the match
itself, text after the match), exactly as the re module finds matches
left to right. -/
def findMarker : List UChar → Option (List UChar × List UChar × List UChar)
  | [] => none
  | [_] => none
  | a :: b :: rest =>
    if a.code = 0x5B ∧ b.code = 0x3A then
      match findClose rest with
      | some (mid, cl, after) => some ([], a :: b :: (mid ++ [cl]), after)
      | none =>
        match findMarker (b :: rest) with
        | none => none
        | some (pre, m, post) => some (a :: pre, m, post)
    else
      match findMarker (b :: rest) with
      | none => none
      | some (pre, m, post) => some (a :: pre, m, post)

theorem findClose_length : ∀ (s mid : List UChar) (cl : UChar) (rest : List UChar),
    findClose s = some (mid, cl, rest) → rest.length < s.length := by
  intro s
  induction s with
  | nil => intro mid cl rest h; simp [findClose] at h
  | cons c cs ih =>
    intro mid cl rest h
    rw [findClose] at h
    by_cases hc : c.code = 0x5D
    · rw [if_pos hc] at h
      simp only [Option.some.injEq, Prod.mk.injEq] at h
      obtain ⟨h1, h2, h3⟩ := h
      simp only [List.length_cons]
      rw [← h3]
      omega
    · rw [if_neg hc] at h
      cases hfc : findClose cs with
      | none => rw [hfc] at h; simp at h
      | some p =>
        obtain ⟨mid2, cl2, rest2⟩ := p
        rw [hfc] at h
        simp only [Option.some.injEq, Prod.mk.injEq] at h
        obtain ⟨h1, h2, h3⟩ := h
        have := ih mid2 cl2 rest2 hfc
        simp only [List.length_cons]
        rw [← h3]
        omega

theorem findClose_decomp : ∀ (s mid : List UChar) (cl : UChar) (rest : List UChar),
    findClose s = some (mid, cl, rest) → s = mid ++ cl :: rest := by
  intro s
  induction s with
  | nil => intro mid cl rest h; simp [findClose] at h
  | cons c cs ih =>
    intro mid cl rest h
    rw [findClose] at h
    by_cases hc : c.code = 0x5D
    · rw [if_pos hc] at h
      simp only [Option.some.injEq, Prod.mk.injEq] at h
      obtain ⟨h1, h2, h3⟩ := h
      rw [← h1, ← h2, ← h3]
      simp
    · rw [if_neg hc] at h
      cases hfc : findClose cs with
      | none => rw [hfc] at h; simp at h
      | some p =>
        obtain ⟨mid2, cl2, rest2⟩ := p
        rw [hfc] at h
        simp only [Option.some.injEq, Prod.mk.injEq] at h
        obtain ⟨h1, h2, h3⟩ := h
        have := ih mid2 cl2 rest2 hfc
        rw [← h1, ← h2, ← h3]
        simp [this]

theorem findMarker_post_length : ∀ (s pre m post : List UChar),
    findMarker s = some (pre, m, post) → post.length < s.length := by
  intro s
  induction s with
  | nil => intro pre m post h; simp [findMarker] at h
  | cons a tail ih =>
    intro pre m post h
    cases tail with
    | nil => simp [findMarker] at h
    | cons b rest =>
      rw [findMarker] at h
      by_cases hab : a.code = 0x5B ∧ b.code = 0x3A
      · rw [if_pos hab] at h
        cases hfc : findClose rest with
        | some p =>
          obtain ⟨mid, cl, after⟩ := p
          rw [hfc] at h
          simp only [Option.some.injEq, Prod.mk.injEq] at h
          obtain ⟨h1, h2, h3⟩ := h
          have := findClose_length rest mid cl after hfc
          simp only [List.length_cons]
          rw [← h3]
          omega
        | none =>
          rw [hfc] at h
          cases hfm : findMarker (b :: rest) with
          | none => rw [hfm] at h; simp at h
          | some q =>
            obtain ⟨pre2, m2, post2⟩ := q
            rw [hfm] at h
            simp only [Option.some.injEq, Prod.mk.injEq] at h
            obtain ⟨h1, h2, h3⟩ := h
            have := ih pre2 m2 post2 hfm
            simp only [List.length_cons] at this ⊢
            rw [← h3]
            omega
      · rw [if_neg hab] at h
        cases hfm : findMarker (b :: rest) with
        | none => rw [hfm] at h; simp at h
        | some q =>
          obtain ⟨pre2, m2, post2⟩ := q
          rw [hfm] at h
          simp only [Option.some.injEq, Prod.mk.injEq] at h
          obtain ⟨h1, h2, h3⟩ := h
          have := ih pre2 m2 post2 hfm
          simp only [List.length_cons] at this ⊢
          rw [← h3]
          omega

theorem findMarker_decomp : ∀ (s pre m post : List UChar),
    findMarker s = some (pre, m, post) → s = pre ++ m ++ post := by
  intro s
  induction s with
  | nil => intro pre m post h; simp [findMarker] at h
  | cons a tail ih =>
    intro pre m post h
    cases tail with
    | nil => simp [findMarker] at h
    | cons b rest =>
      rw [findMarker] at h
      by_cases hab : a.code = 0x5B ∧ b.code = 0x3A
      · rw [if_pos hab] at h
        cases hfc : findClose rest with
        | some p =>
          obtain ⟨mid, cl, after⟩ := p
          rw [hfc] at h
          simp only [Option.some.injEq, Prod.mk.injEq] at h
          obtain ⟨h1, h2, h3⟩ := h
          have hd := findClose_decomp rest mid cl after hfc
          rw [← h1, ← h2, ← h3]
          simp [hd]
        | none =>
          rw [hfc] at h
          cases hfm : findMarker (b :: rest) with
          | none => rw [hfm] at h; simp at h
          | some q =>
            obtain ⟨pre2, m2, post2⟩ := q
            rw [hfm] at h
            simp only [Option.some.injEq, Prod.mk.injEq] at h
            obtain ⟨h1, h2, h3⟩ := h
            have := ih pre2 m2 post2 hfm
            rw [← h1, ← h2, ← h3]
            simp [← this]
      · rw [if_neg hab] at h
        cases hfm : findMarker (b :: rest) with
        | none => rw [hfm] at h; simp at h
        | some q =>
          obtain ⟨pre2, m2, post2⟩ := q
          rw [hfm] at h
          simp only [Option.some.injEq, Prod.mk.injEq] at h
          obtain ⟨h1, h2, h3⟩ := h
          have := ih pre2 m2 post2 hfm
          rw [← h1, ← h2, ← h3]
          simp [← this]

/-- Fuel-indexed recursion for splitMarkup; each markup match consumes at
least three characters, so fuel equal to the string length is always
enough and the zero-fuel case is only reached on the empty string. -/
def splitMarkupAux : Nat → List UChar → List (List UChar)
  | 0, s => [s]
  | fuel + 1, s =>
    match findMarker s with
    | none => [s]
    | some (pre, m, post) => pre :: m :: splitMarkupAux fuel post

/-- re.split of the internal markup regex with its capturing group
(cliptext.py line 57): the pieces between matches, with each match itself
kept in the list. -/
def splitMarkup (s : List UChar) : List (List UChar) :=
  splitMarkupAux s.length s

theorem splitMarkupAux_fuel : ∀ (f1 f2 : Nat) (s : List UChar),
    s.length ≤ f1 → s.length ≤ f2 → splitMarkupAux f1 s = splitMarkupAux f2 s := by
  intro f1
  induction f1 with
  | zero =>
    intro f2 s h1 h2
    have hs : s = [] := by
      cases s with
      | nil => rfl
      | cons a t => simp at h1
    subst hs
    cases f2 with
    | zero => rfl
    | succ f => simp [splitMarkupAux, findMarker]
  | succ f1 ih =>
    intro f2 s h1 h2
    cases f2 with
    | zero =>
      have hs : s = [] := by
        cases s with
        | nil => rfl
        | cons a t => simp at h2
      subst hs
      simp [splitMarkupAux, findMarker]
    | succ f2 =>
      rw [splitMarkupAux, splitMarkupAux]
      cases hfm : findMarker s with
      | none => rfl
      | some q =>
        obtain ⟨pre, m, post⟩ := q
        have hlt := findMarker_post_length s pre m post hfm
        dsimp only
        rw [ih f2 post (by omega) (by omega)]

/-- The one-step unfolding of splitMarkup. -/
theorem splitMarkup_eq (s : List UChar) :
    splitMarkup s = match findMarker s with
      | none => [s]
      | some (pre, m, post) => pre :: m :: splitMarkup post := by
  cases hfm : findMarker s with
  | none =>
    cases hs : s with
    | nil => simp [splitMarkup, splitMarkupAux]
    | cons a t => rw [← hs]; unfold splitMarkup; rw [hs]; simp [splitMarkupAux, ← hs, hfm]
  | some q =>
    obtain ⟨pre, m, post⟩ := q
    have hlt := findMarker_post_length s pre m post hfm
    cases hs : s with
    | nil => rw [hs] at hfm; simp [findMarker] at hfm
    | cons a t =>
      rw [← hs]
      unfold splitMarkup
      rw [hs]
      simp only [List.length_cons, splitMarkupAux]
      rw [← hs, hfm]
      dsimp only
      rw [splitMarkupAux_fuel t.length post.length post (by rw [hs] at hlt; simp at hlt; omega) (le_refl _)]

theorem splitMarkupAux_join : ∀ (f : Nat) (s : List UChar), s.length ≤ f →
    (splitMarkupAux f s).flatten = s := by
  intro f
  induction f with
  | zero =>
    intro s h
    have hs : s = [] := by
      cases s with
      | nil => rfl
      | cons a t => simp at h
    subst hs
    simp [splitMarkupAux]
  | succ f ih =>
    intro s h
    rw [splitMarkupAux]
    cases hfm : findMarker s with
    | none => simp
    | some q =>
      obtain ⟨pre, m, post⟩ := q
      have hlt := findMarker_post_length s pre m post hfm
      have hd := findMarker_decomp s pre m post hfm
      simp only [List.flatten_cons]
      rw [ih post (by omega)]
      simp [hd]

/-- The pieces produced by splitMarkup concatenate back to the original
string: re.split with a capturing group loses no characters. -/
theorem splitMarkup_join (s : List UChar) : (splitMarkup s).flatten = s :=
  splitMarkupAux_join s.length s (le_refl _)

/-- Python startswith of the two-character opening marker. -/
def startsMark : List UChar → Bool
  | a :: b :: _ => a.code == 0x5B && b.code == 0x3A
  | _ => false

/-- Python endswith of the closing bracket. -/
def endsBracket (s : List UChar) : Bool :=
  match s.getLast? with
  | some c => c.code == 0x5D
  | none => false

/-- The chunk test at cliptext.py line 61 and line 258: starts with the
opening marker and ends with the closing bracket. -/
def markerShaped (s : List UChar) : Bool :=
  startsMark s && endsBracket s

/-- The colon character, yielded for an empty style marker. -/
def colonChar : UChar := ⟨0x3A, EAW.Na, GCat.Other, false, false⟩

/-- iterchunks from cliptext.py lines 56-64: split on the markup regex,
skip empty chunks, yield (style token, empty) for marker chunks when not
literal, else (empty, chunk). -/
def iterchunks (s : List UChar) (literal : Bool) : List (List UChar × List UChar) :=
  (splitMarkup s).filterMap fun chunk =>
    if chunk = [] then none
    else if ¬ literal ∧ markerShaped chunk then
      let mid := (chunk.drop 2).dropLast
      some ((if mid = [] then [colonChar] else mid), [])
    else some (([] : List UChar), chunk)

/-- Truthiness of the maxwidth bound together with the overflow test at
cliptext.py line 77: maxwidth is truthy (not None and nonzero) and the
running sum exceeds it. -/
def mwExceeded (maxwidth : Option Int) (w : Nat) : Bool :=
  match maxwidth with
  | none => false
  | some m => m != 0 && (w : Int) > m

/-- Inner character loop of dispwidth (cliptext.py lines 74-78); the break
leaves only this inner loop.  Every character of a Python string is truthy,
so the if cc guard always passes. -/
def dispwChunk (ambig : Nat) (maxwidth : Option Int) : List UChar → Nat → Nat
  | [], w => w
  | c :: cs, w =>
    let w2 := w + wcwidth c ambig
    if mwExceeded maxwidth w2 then w2 else dispwChunk ambig maxwidth cs w2

/-- dispwidth from cliptext.py lines 67-79.  ambig stands for the
options.disp_ambig_width global; the lru_cache memoization is
semantically transparent and not modelled. -/
def dispwidth (ambig : Nat) (ss : List UChar) (maxwidth : Option Int) (literal : Bool) : Nat :=
  (iterchunks ss literal).foldl (fun w p => dispwChunk ambig maxwidth p.2 w) 0

/-- The general-category tests of _dispch, lines 85 and 88. -/
def catMnSkLm (c : UChar) : Bool :=
  c.cat = GCat.Mn || c.cat = GCat.Sk || c.cat = GCat.Lm

def catOddSpace (c : UChar) : Bool :=
  c.cat = GCat.Cc || c.cat = GCat.Zs || c.cat = GCat.Zl || c.cat = GCat.Cs

/-- _dispch from cliptext.py lines 83-93.  The substitute characters are
strings (possibly empty); the fall-through of the first branch when the
name is not MODIFIER reaches the final return, as in the source. -/
def _dispch (ambig : Nat) (oddspacech combch modch : List UChar) (c : UChar) :
    List UChar × Nat :=
  if catMnSkLm c then
    if c.nameIsModifier then (modch, 1)
    else ([c], dispwidth ambig [c] none true)
  else if c.code ≠ 32 ∧ catOddSpace c then (oddspacech, 1)
  else if c.code ∈ zeroWidthCodes then (combch, 1)
  else ([c], dispwidth ambig [c] none true)

/-- Character loop of _clipstr (cliptext.py lines 124-136), threading the
accumulated output and width.  The output is built left to right; the slice
ret[:-2] removing the last two characters is dropLast twice. -/
def clipAux (ambig : Nat) (dispw : Int) (trunch oddspacech combch modch : List UChar)
    (trunchlen : Nat) : List UChar → List UChar → Nat → List UChar × Nat
  | [], ret, w => (ret, w)
  | c :: cs, ret, w =>
    let p := _dispch ambig oddspacech combch modch c
    let ret2 := if p.1 ≠ [] then ret ++ p.1 else ret ++ [c]
    let w2 := if p.1 ≠ [] then w + p.2 else w + dispwidth ambig [c] none false
    if dispw ≠ 0 ∧ (w2 : Int) > dispw - trunchlen + 1 then
      (ret2.dropLast.dropLast ++ trunch, w2 + trunchlen)
    else
      clipAux ambig dispw trunch oddspacech combch modch trunchlen cs ret2 w2

/-- _clipstr from cliptext.py lines 116-138. -/
def _clipstr (ambig : Nat) (s : List UChar) (dispw : Int)
    (trunch oddspacech combch modch : List UChar) : List UChar × Nat :=
  let trunchlen := dispwidth ambig trunch none false
  clipAux ambig dispw trunch oddspacech combch modch trunchlen s [] 0


/-- The substitution test of _dispch, as one predicate: the character is
replaced (by the modifier, odd-space or combining substitute) rather than
kept as itself.  Mirrors the branch structure of cliptext.py lines 84-91,
including the fall-through of a modifier-category character whose name is
not MODIFIER. -/
def substitutable (c : UChar) : Bool :=
  if catMnSkLm c then c.nameIsModifier
  else if c.code ≠ 32 ∧ catOddSpace c then true
  else decide (c.code ∈ zeroWidthCodes)

theorem widthSum_append (ambig : Nat) (a b : List UChar) :
    widthSum ambig (a ++ b) = widthSum ambig a + widthSum ambig b := by
  simp [widthSum]

/-- On a single character (never a markup match), dispwidth is wcwidth,
whatever the literal flag and with no width bound. -/
theorem dispwidth_single (ambig : Nat) (c : UChar) (literal : Bool) :
    dispwidth ambig [c] none literal = wcwidth c ambig := by
  have hsp : splitMarkup [c] = [[c]] := rfl
  have hms : markerShaped [c] = false := by simp [markerShaped, startsMark]
  cases literal <;>
    simp [dispwidth, iterchunks, hsp, hms, dispwChunk, mwExceeded]

/-- An unsubstituted character passes through _dispch unchanged with its
wcwidth. -/
theorem dispch_unsub (ambig : Nat) (o cb m : List UChar) (c : UChar)
    (h : substitutable c = false) :
    _dispch ambig o cb m c = ([c], wcwidth c ambig) := by
  unfold substitutable at h
  unfold _dispch
  by_cases h1 : catMnSkLm c = true
  · rw [if_pos h1] at h ⊢
    rw [if_neg (by simp [h])]
    rw [dispwidth_single]
  · rw [if_neg h1] at h ⊢
    by_cases h2 : c.code ≠ 32 ∧ catOddSpace c = true
    · rw [if_pos h2] at h; simp at h
    · rw [if_neg h2] at h ⊢
      have h3 : ¬ (c.code ∈ zeroWidthCodes) := by simpa using h
      rw [if_neg h3, dispwidth_single]

/-- The inner dispwidth loop with no width bound just adds the width sum. -/
theorem dispwChunk_none (ambig : Nat) : ∀ (s : List UChar) (w : Nat),
    dispwChunk ambig none s w = w + widthSum ambig s := by
  intro s
  induction s with
  | nil => intro w; simp [dispwChunk, widthSum]
  | cons c cs ih =>
    intro w
    simp [dispwChunk, mwExceeded, ih, widthSum]
    omega

theorem dispwidth_none_fold (ambig : Nat) :
    ∀ (cl : List (List UChar)) (w0 : Nat),
    (cl.filterMap fun chunk =>
        if chunk = [] then none
        else some (([] : List UChar), chunk)).foldl
      (fun w p => dispwChunk ambig none p.2 w) w0 = w0 + widthSum ambig cl.flatten := by
  intro cl
  induction cl with
  | nil => intro w0; simp [widthSum]
  | cons c cl ih =>
    intro w0
    by_cases hc : c = []
    · simp [hc, ih]
    · simp only [List.filterMap_cons, if_neg hc, List.foldl_cons]
      rw [dispwChunk_none]
      rw [ih (w0 + widthSum ambig c)]
      simp only [List.flatten_cons, widthSum_append]
      omega

/-- With the literal flag and no width bound, dispwidth is the plain sum of
wcwidth over the characters of the string. -/
theorem dispwidth_none_true (ambig : Nat) (s : List UChar) :
    dispwidth ambig s none true = widthSum ambig s := by
  unfold dispwidth iterchunks
  have h0 := dispwidth_none_fold ambig (splitMarkup s) 0
  rw [splitMarkup_join] at h0
  simpa using h0

/-- The truncation-free run of the _clipstr loop: while the running width
stays within the truncation threshold and no character is substituted,
the loop copies its input and adds up wcwidths. -/
theorem clipAux_id (ambig : Nat) (dispw : Int)
    (trunch oddspacech combch modch : List UChar) (trunchlen : Nat) :
    ∀ (s ret : List UChar) (w : Nat),
    (∀ c ∈ s, substitutable c = false) →
    (w + widthSum ambig s : Int) ≤ dispw - trunchlen + 1 →
    clipAux ambig dispw trunch oddspacech combch modch trunchlen s ret w =
      (ret ++ s, w + widthSum ambig s) := by
  intro s
  induction s with
  | nil => intro ret w hs hb; simp [clipAux, widthSum]
  | cons c cs ih =>
    intro ret w hs hb
    have hc := hs c (by simp)
    rw [clipAux]
    rw [dispch_unsub ambig oddspacech combch modch c hc]
    simp only [ne_eq, List.cons_ne_nil, not_false_iff, if_pos]
    have hw : widthSum ambig (c :: cs) = wcwidth c ambig + widthSum ambig cs := by
      simp [widthSum]
    have hble : ((w + wcwidth c ambig : Nat) : Int) ≤ dispw - trunchlen + 1 := by
      rw [hw] at hb
      push_cast at hb ⊢
      omega
    rw [if_neg (by push_cast at hble ⊢; omega)]
    rw [ih (ret ++ [c]) (w + wcwidth c ambig) (fun d hd => hs d (by simp [hd])) (by rw [hw] at hb; push_cast at hb ⊢; omega)]
    rw [hw]
    simp
    omega

/-! Concrete characters used by the claims, with their true Unicode
attributes: printable narrow ASCII, the ASCII space (category Zs, but
explicitly spared by the space test of _dispch), the horizontal ellipsis
(East-Asian-width Ambiguous), and the zero width space (a member of
ZERO_WIDTH_CF). -/

/-- A printable narrow ASCII character in none of the categories the
source branches on: a letter, digit or punctuation mark. -/
def asciiCh (n : Nat) : UChar := ⟨n, EAW.Na, GCat.Other, false, false⟩

/-- The ASCII space: category Zs, East-Asian-width Narrow. -/
def spaceCh : UChar := ⟨32, EAW.Na, GCat.Zs, false, false⟩

/-- The horizontal ellipsis, code 0x2026: East-Asian-width Ambiguous,
category Po, not combining. -/
def ellipsisCh : UChar := ⟨0x2026, EAW.A, GCat.Other, false, false⟩

/-- The zero width space, code 0x200B: category Cf, East-Asian-width
Neutral, an explicit member of ZERO_WIDTH_CF. -/
def zwspCh : UChar := ⟨0x200B, EAW.N, GCat.Cf, false, false⟩

/-- The string hello world. -/
def helloWorldStr : List UChar :=
  [asciiCh 104, asciiCh 101, asciiCh 108, asciiCh 108, asciiCh 111, spaceCh,
   asciiCh 119, asciiCh 111, asciiCh 114, asciiCh 108, asciiCh 100]

/-- The string hell followed by the ellipsis. -/
def hellTruncStr : List UChar :=
  [asciiCh 104, asciiCh 101, asciiCh 108, asciiCh 108, ellipsisCh]

/-- Claim C1 (counterexample): clipping hello world to width 5 with the
ellipsis truncator returns 7 as the displayWidth component, so the
component is neither equal to 5 nor at most the bound 5, refuting the
claim at this concrete input. -/
theorem C1_counterexample :
    (_clipstr 1 helloWorldStr 5 [ellipsisCh] [] [] []).2 = 7 ∧
    ¬ ((_clipstr 1 helloWorldStr 5 [ellipsisCh] [] [] []).2 ≤ 5) := by
  decide

/-- Claim C1 (amended): clipping hello world to width 5 with the ellipsis
truncator yields the string hell followed by the ellipsis, whose actual
display width is 5, but the returned displayWidth component is 7: the
accumulated width 6 at the overflowing character plus the truncator width,
the widths of the two removed characters not being subtracted.  The
returned width component can therefore exceed the bound; callers use that
overshoot as the truncation signal. -/
theorem C1_clip_hello_world :
    _clipstr 1 helloWorldStr 5 [ellipsisCh] [] [] [] = (hellTruncStr, 7) ∧
    dispwidth 1 hellTruncStr none false = 5 := by
  decide

/-- Claim C2 (counterexample): the zero width space is in the explicit
zero-width set, yet wcwidth returns 1 for it, not 0. -/
theorem C2_counterexample :
    zwspCh.code ∈ zeroWidthCodes ∧ wcwidth zwspCh 1 ≠ 0 := by
  decide

/-- Claim C2 (amended): for every code point in the explicit zero-width
set and every ambiguous-width policy value, wcwidth returns 1 (the first
branch of the function fires before any other classification; these
characters are shown as width-one placeholder glyphs). -/
theorem C2_zero_width_one (c : UChar) (ambig : Nat)
    (h : c.code ∈ zeroWidthCodes) : wcwidth c ambig = 1 := by
  unfold wcwidth
  rw [if_pos h]

/-- Witness for C2_zero_width_one at the zero width space with policy 2. -/
theorem C2_zero_width_one_witness :
    zwspCh.code ∈ zeroWidthCodes ∧ wcwidth zwspCh 2 = 1 :=
  ⟨by decide, C2_zero_width_one zwspCh 2 (by decide)⟩

/-- Claim C3 (counterexample): with the two-character truncator of display
width 2 and k = 0, clipping the substitution-free string ab to its own
display width does not return it unmodified: the loop truncates because
the threshold bound minus truncator width plus one is reached, and the
result is the bare truncator. -/
theorem C3_counterexample :
    (_clipstr 1 [asciiCh 97, asciiCh 98]
      ((dispwidth 1 [asciiCh 97, asciiCh 98] none true : Int) + ((0 : Nat) : Int))
      [asciiCh 46, asciiCh 46] [] [] []).1 ≠ [asciiCh 97, asciiCh 98] := by
  decide

/-- Claim C3 (amended): for every text whose characters are not subject to
odd-space, combining or modifier substitution, every truncator whose
display width is at most k plus one, and every k, clipping the text to its
display width plus k returns the text unmodified together with that display
width, with no truncation performed. -/
theorem C3_roundtrip (ambig : Nat) (s trunch oddspacech combch modch : List UChar)
    (k : Nat)
    (hs : ∀ c ∈ s, substitutable c = false)
    (ht : dispwidth ambig trunch none false ≤ k + 1) :
    _clipstr ambig s ((dispwidth ambig s none true : Int) + (k : Int))
      trunch oddspacech combch modch
      = (s, dispwidth ambig s none true) := by
  have hW := dispwidth_none_true ambig s
  unfold _clipstr
  rw [clipAux_id ambig _ trunch oddspacech combch modch _ s [] 0 hs
      (by rw [hW]; push_cast; omega)]
  simp [hW]

/-- Witness for C3_roundtrip: the string ab with the one-character
ellipsis truncator and k = 0. -/
theorem C3_roundtrip_witness :
    (∀ c ∈ [asciiCh 97, asciiCh 98], substitutable c = false) ∧
    dispwidth 1 [ellipsisCh] none false ≤ 0 + 1 ∧
    _clipstr 1 [asciiCh 97, asciiCh 98]
      ((dispwidth 1 [asciiCh 97, asciiCh 98] none true : Int) + ((0 : Nat) : Int))
      [ellipsisCh] [] [] []
      = ([asciiCh 97, asciiCh 98], dispwidth 1 [asciiCh 97, asciiCh 98] none true) :=
  ⟨by decide, by decide, C3_roundtrip 1 _ _ _ _ _ 0 (by decide) (by decide)⟩

/-- A string containing a closing bracket admits a findClose match. -/
theorem findClose_of_mem : ∀ (l : List UChar),
    (∃ c ∈ l, c.code = 0x5D) → findClose l ≠ none := by
  intro l
  induction l with
  | nil => intro h; simp at h
  | cons c cs ih =>
    intro h
    rw [findClose]
    by_cases hc : c.code = 0x5D
    · rw [if_pos hc]; simp
    · rw [if_neg hc]
      have hcs : ∃ d ∈ cs, d.code = 0x5D := by
        obtain ⟨d, hd, hcode⟩ := h
        cases hd with
        | head => exact absurd hcode hc
        | tail _ hmem => exact ⟨d, hmem, hcode⟩
      have := ih hcs
      cases hfc : findClose cs with
      | none => exact absurd hfc this
      | some p => obtain ⟨mid, cl, rest⟩ := p; simp

theorem splitMarkup_ne_nil (s : List UChar) : splitMarkup s ≠ [] := by
  rw [splitMarkup_eq]
  cases hfm : findMarker s with
  | none => simp
  | some q => obtain ⟨pre, m, post⟩ := q; simp

/-- A string that re.split leaves in one piece is not marker shaped. -/
theorem single_piece_not_marker (s : List UChar)
    (hsp : splitMarkup s = [s]) : markerShaped s = false := by
  by_contra hmk
  have hmk2 : markerShaped s = true := by revert hmk; cases markerShaped s <;> simp
  unfold markerShaped startsMark at hmk2
  cases s with
  | nil => simp at hmk2
  | cons a tail =>
    cases tail with
    | nil => simp at hmk2
    | cons b t =>
      rw [Bool.and_eq_true] at hmk2
      obtain ⟨hab, hend⟩ := hmk2
      rw [Bool.and_eq_true] at hab
      have ha : a.code = 0x5B := by simpa using hab.1
      have hb : b.code = 0x3A := by simpa using hab.2
      have hfc : findClose t ≠ none := by
        apply findClose_of_mem
        cases ht : t with
        | nil =>
          subst ht
          unfold endsBracket at hend
          simp [List.getLast?] at hend
          rw [hend] at hb
          simp at hb
        | cons u us =>
          rw [← ht]
          have hlast : (a :: b :: t).getLast? = t.getLast? := by
            rw [ht]; simp [List.getLast?_cons_cons]
          unfold endsBracket at hend
          rw [hlast] at hend
          cases hgl : t.getLast? with
          | none => rw [hgl] at hend; simp at hend
          | some d =>
            rw [hgl] at hend
            refine ⟨d, ?_, by simpa using hend⟩
            have hdm : d ∈ t.getLast? := by rw [Option.mem_def, hgl]
            obtain ⟨hne, heq⟩ := List.mem_getLast?_eq_getLast hdm
            rw [heq]
            exact List.getLast_mem hne
      have hfm : findMarker (a :: b :: t) ≠ none := by
        rw [findMarker, if_pos ⟨ha, hb⟩]
        cases hfc2 : findClose t with
        | none => exact absurd hfc2 hfc
        | some p => obtain ⟨mid, cl, after⟩ := p; simp
      cases hfm2 : findMarker (a :: b :: t) with
      | none => exact absurd hfm2 hfm
      | some q =>
        obtain ⟨pre, m, post⟩ := q
        rw [splitMarkup_eq, hfm2] at hsp
        have hlen := congrArg List.length hsp
        simp at hlen

/-- The inner dispwidth loop stops at the first character whose width
pushes the running sum past the active bound: the result is the width of
the shortest overflowing prefix, or of the whole chunk when no prefix
overflows. -/
theorem dispwChunk_first_overflow (ambig m : Nat) (hm : 1 ≤ m) :
    ∀ (s : List UChar) (w : Nat), w ≤ m →
    ∃ j ≤ s.length,
      dispwChunk ambig (some (m : Int)) s w = w + widthSum ambig (s.take j) ∧
      (∀ i < j, w + widthSum ambig (s.take i) ≤ m) ∧
      (j < s.length → m < w + widthSum ambig (s.take j)) := by
  intro s
  induction s with
  | nil =>
    intro w hw
    refine ⟨0, by simp, by simp [dispwChunk, widthSum], ?_, ?_⟩
    · intro i hi; omega
    · intro hcon; simp at hcon
  | cons c cs ih =>
    intro w hw
    rw [dispwChunk]
    have hmw : mwExceeded (some (m : Int)) (w + wcwidth c ambig) =
        decide (m < w + wcwidth c ambig) := by
      unfold mwExceeded
      dsimp only
      have h0 : ((m : Int) != 0) = true := by simp; omega
      rw [h0, Bool.true_and, decide_eq_decide]
      constructor
      · intro hlt; exact_mod_cast hlt
      · intro hlt; exact_mod_cast hlt
    have ht1 : List.take 1 (c :: cs) = [c] := rfl
    by_cases hover : m < w + wcwidth c ambig
    · rw [hmw, decide_eq_true hover, if_pos rfl]
      refine ⟨1, by simp only [List.length_cons]; omega, ?_, ?_, ?_⟩
      · rw [ht1]; simp [widthSum]
      · intro i hi
        have hi0 : i = 0 := by omega
        subst hi0
        simpa [widthSum] using hw
      · intro _
        rw [ht1]
        simp only [widthSum, List.map_cons, List.map_nil, List.sum_cons, List.sum_nil]
        omega
    · rw [hmw, decide_eq_false hover]
      rw [if_neg (by simp)]
      obtain ⟨j, hj, heq, hle, hov⟩ := ih (w + wcwidth c ambig) (by omega)
      have htj : ∀ n : Nat, List.take (n + 1) (c :: cs) = c :: List.take n cs := fun n => rfl
      have hws : ∀ n : Nat, widthSum ambig (c :: List.take n cs) =
          wcwidth c ambig + widthSum ambig (List.take n cs) := by
        intro n; simp [widthSum]
      refine ⟨j + 1, by simp only [List.length_cons]; omega, ?_, ?_, ?_⟩
      · rw [heq, htj, hws]
        omega
      · intro i hi
        cases i with
        | zero => simpa [widthSum] using hw
        | succ i2 =>
          have := hle i2 (by omega)
          rw [htj, hws]
          omega
      · intro hlt
        have := hov (by simp only [List.length_cons] at hlt; omega)
        rw [htj, hws]
        omega

/-- The string abc followed by a red style marker followed by def. -/
def c4Str : List UChar :=
  [asciiCh 97, asciiCh 98, asciiCh 99,
   asciiCh 0x5B, asciiCh 0x3A, asciiCh 114, asciiCh 101, asciiCh 100, asciiCh 0x5D,
   asciiCh 100, asciiCh 101, asciiCh 102]

/-- The string abc. -/
def abcStr : List UChar := [asciiCh 97, asciiCh 98, asciiCh 99]

/-- Claim C4 (counterexample): measuring the styled string abc-marker-def
with bound 2 returns 4, not 3: the sum up to and including the first
overflowing character would be 3 (a, b, c), but the break leaves only the
inner per-segment loop, so the literal segment after the style marker
contributes its first character d as well. -/
theorem C4_counterexample :
    dispwidth 1 c4Str (some 2) false = 4 ∧ (4 : Nat) ≠ 3 := by
  decide

/-- Claim C4 (amended): the early exit is per literal segment, not global.
For a string that forms a single literal segment (no style markers), the
measurer returns the widths summed up to and including the first character
that pushed the sum past the bound, with no later character contributing;
with several segments, each literal segment is cut off in the same way but
every segment still contributes. -/
theorem C4_single_segment_cutoff (ambig m : Nat) (s : List UChar)
    (hm : 1 ≤ m) (hsp : splitMarkup s = [s]) :
    ∃ j ≤ s.length,
      dispwidth ambig s (some ((m : Nat) : Int)) false = widthSum ambig (s.take j) ∧
      (∀ i < j, widthSum ambig (s.take i) ≤ m) ∧
      (j < s.length → m < widthSum ambig (s.take j)) := by
  by_cases hs : s = []
  · refine ⟨0, by simp, ?_, ?_, ?_⟩
    · subst hs
      simp [dispwidth, iterchunks, splitMarkup, splitMarkupAux, findMarker, widthSum]
    · intro i hi; omega
    · intro hcon; rw [hs] at hcon; simp at hcon
  · have hmk := single_piece_not_marker s hsp
    have hiter : iterchunks s false = [(([] : List UChar), s)] := by
      unfold iterchunks
      rw [hsp]
      simp only [List.filterMap_cons, List.filterMap_nil]
      rw [if_neg hs, if_neg (by simp [hmk])]
    unfold dispwidth
    rw [hiter]
    simp only [List.foldl_cons, List.foldl_nil]
    have := dispwChunk_first_overflow ambig m hm s 0 (by omega)
    simpa using this

/-- Witness for C4_single_segment_cutoff on the marker-free string abc
with bound 2. -/
theorem C4_single_segment_cutoff_witness :
    (1 : Nat) ≤ 2 ∧ splitMarkup abcStr = [abcStr] ∧
    (∃ j ≤ abcStr.length,
      dispwidth 1 abcStr (some ((2 : Nat) : Int)) false = widthSum 1 (abcStr.take j) ∧
      (∀ i < j, widthSum 1 (abcStr.take i) ≤ 2) ∧
      (j < abcStr.length → 2 < widthSum 1 (abcStr.take j))) :=
  ⟨by norm_num, by decide, C4_single_segment_cutoff 1 2 abcStr (by norm_num) (by decide)⟩

/-- The string consisting of a red style marker followed by ab. -/
def c10Str : List UChar :=
  [asciiCh 0x5B, asciiCh 0x3A, asciiCh 114, asciiCh 101, asciiCh 100, asciiCh 0x5D,
   asciiCh 97, asciiCh 98]

/-- Claim C10: every pair yielded by the markup segmenter has exactly one
non-empty component: a non-empty style token with empty literal text, or
an empty token with non-empty literal text; the all-empty pair is never
yielded, and under the literal flag every pair is a pure literal. -/
theorem C10_chunks_exclusive (s : List UChar) (literal : Bool) (tok lit : List UChar)
    (h : (tok, lit) ∈ iterchunks s literal) :
    ((tok ≠ [] ∧ lit = []) ∨ (tok = [] ∧ lit ≠ [])) ∧
    (literal = true → tok = [] ∧ lit ≠ []) := by
  unfold iterchunks at h
  rw [List.mem_filterMap] at h
  obtain ⟨chunk, hmem, heq⟩ := h
  by_cases hnil : chunk = []
  · rw [if_pos hnil] at heq; simp at heq
  · rw [if_neg hnil] at heq
    split at heq
    · rename_i hcond
      simp only [Option.some.injEq, Prod.mk.injEq] at heq
      obtain ⟨h1, h2⟩ := heq
      constructor
      · left
        refine ⟨?_, h2.symm⟩
        rw [← h1]
        by_cases hmid : (chunk.drop 2).dropLast = []
        · rw [if_pos hmid]; simp
        · rw [if_neg hmid]; exact hmid
      · intro hl
        exact absurd hl hcond.1
    · simp only [Option.some.injEq, Prod.mk.injEq] at heq
      obtain ⟨h1, h2⟩ := heq
      refine ⟨Or.inr ⟨h1.symm, by rw [← h2]; exact hnil⟩, ?_⟩
      intro _
      exact ⟨h1.symm, by rw [← h2]; exact hnil⟩

/-- Witness for C10_chunks_exclusive at the style token red yielded from
the string marker-red-ab. -/
theorem C10_chunks_exclusive_witness :
    (([asciiCh 114, asciiCh 101, asciiCh 100], ([] : List UChar)) ∈ iterchunks c10Str false) ∧
    ((([asciiCh 114, asciiCh 101, asciiCh 100] : List UChar) ≠ [] ∧ ([] : List UChar) = []) ∨
      (([asciiCh 114, asciiCh 101, asciiCh 100] : List UChar) = [] ∧ ([] : List UChar) ≠ [])) ∧
    (false = true → ([asciiCh 114, asciiCh 101, asciiCh 100] : List UChar) = [] ∧ ([] : List UChar) ≠ []) :=
  ⟨by decide,
   (C10_chunks_exclusive c10Str false _ _ (by decide)).1,
   (C10_chunks_exclusive c10Str false _ _ (by decide)).2⟩

/-! Mouse registry and dispatch (mouse.py).  Window names and keystroke
identifiers are opaque strings in the source; they are modelled as opaque
natural-number identifiers, commands as either a command string or an
opaque callable. -/

/-- A command bound to a mouse button: a command string to be split and
executed, or a callable, modelled by an opaque identifier. -/
inductive MouseCmd
  | str (s : List UChar)
  | fn (id : Nat)
deriving DecidableEq

/-- A curses window handle, reduced to what the source reads from it:
getparyx, the origin of a sub-window inside its parent, which curses
reports as (-1, -1) for a top-level window. -/
structure Scr where
  par : Option (Int × Int)
deriving DecidableEq

/-- scr.getparyx(). -/
def getparyx (scr : Scr) : Int × Int := scr.par.getD (-1, -1)

/-- One entry of vd.mousereg (mouse.py line 38). -/
structure MouseReg where
  winname : Nat
  winscr : Scr
  y : Int
  x : Int
  h : Int
  w : Int
  buttonfuncs : List (Nat × MouseCmd)
deriving DecidableEq

/-- Python dict lookup on the kwargs mapping (keys are unique, so the
first association is the association). -/
def dictGet (d : List (Nat × MouseCmd)) (k : Nat) : Option MouseCmd :=
  match d.find? (fun p => p.1 == k) with
  | some p => some p.2
  | none => none

/-- onMouse from mouse.py lines 31-39: read the parent origin, offset
(y, x) by it when the origin row is positive, and append the region to
the registry. -/
def onMouse (mousereg : List MouseReg) (scr : Scr) (y x h w : Int)
    (winname : Nat) (buttonfuncs : List (Nat × MouseCmd)) : List MouseReg :=
  let p := getparyx scr
  let y2 := if p.1 > 0 then y + p.1 else y
  let x2 := if p.1 > 0 then x + p.2 else x
  mousereg ++ [⟨winname, scr, y2, x2, h, w, buttonfuncs⟩]

/-- The hit test of getMouse (mouse.py line 45): the point lies inside the
region rectangle and the keystroke is a key of its button map. -/
def regHit (reg : MouseReg) (x y : Int) (button : Nat) : Bool :=
  decide (reg.x ≤ x) && decide (x < reg.x + reg.w) &&
  decide (reg.y ≤ y) && decide (y < reg.y + reg.h) &&
  (dictGet reg.buttonfuncs button).isSome

/-- getMouse from mouse.py lines 42-46: walk the registry in reverse
registration order and return the stored command of the first region that
passes the hit test; None when nothing matches.  The screen argument is
unused by the source. -/
def getMouse (mousereg : List MouseReg) (_scr : Option Scr) (x y : Int) (button : Nat) :
    Option MouseCmd :=
  match mousereg.reverse.find? (fun reg => regHit reg x y button) with
  | some reg => dictGet reg.buttonfuncs button
  | none => none

/-- Claim C5: when two overlapping regions were both registered (after any
earlier registrations), both contain the queried point and both map the
queried keystroke, the mouse lookup returns the command of the
later-registered region: the reversed registry is searched and the first
hit wins. -/
theorem C5_topmost_hit (pre : List MouseReg) (r1 r2 : MouseReg) (x y : Int) (b : Nat)
    (h1 : regHit r1 x y b = true) (h2 : regHit r2 x y b = true) :
    getMouse (pre ++ [r1, r2]) none x y b = dictGet r2.buttonfuncs b := by
  unfold getMouse
  rw [List.reverse_append]
  simp only [List.reverse_cons, List.reverse_nil, List.nil_append, List.cons_append]
  have hf : List.find? (fun reg => regHit reg x y b) (r2 :: r1 :: pre.reverse) = some r2 := by
    apply List.find?_cons_of_pos
    exact h2
  rw [hf]

/-- Two overlapping concrete regions over the point (2, 2) and keystroke
7, mapping it to the command strings 1 and 2 respectively. -/
def regEx1 : MouseReg := ⟨0, ⟨none⟩, 0, 0, 5, 5, [(7, MouseCmd.str [asciiCh 49])]⟩

def regEx2 : MouseReg := ⟨1, ⟨none⟩, 1, 1, 5, 5, [(7, MouseCmd.str [asciiCh 50])]⟩

/-- Witness for C5_topmost_hit: both concrete regions contain (2, 2) and
map keystroke 7; the lookup returns the command of the second. -/
theorem C5_topmost_hit_witness :
    regHit regEx1 2 2 7 = true ∧ regHit regEx2 2 2 7 = true ∧
    getMouse ([] ++ [regEx1, regEx2]) none 2 2 7 = dictGet regEx2.buttonfuncs 7 :=
  ⟨by decide, by decide, C5_topmost_hit [] regEx1 regEx2 2 2 7 (by decide) (by decide)⟩

/-- Claim C6 (counterexample): a registration on a sub-window whose parent
origin is (0, 3) is stored at the unshifted coordinates (5, 7), not at
(5, 7 + 3) as the claim requires, because the source only shifts when the
origin row is strictly positive. -/
theorem C6_counterexample :
    onMouse [] ⟨some (0, 3)⟩ 5 7 2 2 0 [] =
      [⟨0, ⟨some (0, 3)⟩, 5, 7, 2, 2, []⟩] ∧ ((7 : Int) ≠ 7 + 3) := by
  decide

/-- Claim C6 (amended): a registration is offset by the parent origin
(py, px) only when py is strictly positive; a sub-window starting at the
parent's top row (py = 0, any px) is stored unshifted, and a top-level
window (getparyx reports (-1, -1)) is stored unshifted. -/
theorem C6_offset_rule (st : List MouseReg) (scr : Scr) (y x h w : Int)
    (wn : Nat) (bf : List (Nat × MouseCmd)) :
    (∀ py px : Int, scr = ⟨some (py, px)⟩ → 0 < py →
      onMouse st scr y x h w wn bf = st ++ [⟨wn, scr, y + py, x + px, h, w, bf⟩]) ∧
    (∀ py px : Int, scr = ⟨some (py, px)⟩ → py ≤ 0 →
      onMouse st scr y x h w wn bf = st ++ [⟨wn, scr, y, x, h, w, bf⟩]) ∧
    (scr = ⟨none⟩ → onMouse st scr y x h w wn bf = st ++ [⟨wn, scr, y, x, h, w, bf⟩]) := by
  refine ⟨?_, ?_, ?_⟩
  · intro py px hscr hpy
    subst hscr
    unfold onMouse getparyx
    simp only [Option.getD_some]
    rw [if_pos hpy, if_pos hpy]
  · intro py px hscr hpy
    subst hscr
    unfold onMouse getparyx
    simp only [Option.getD_some]
    rw [if_neg (by omega), if_neg (by omega)]
  · intro hscr
    subst hscr
    unfold onMouse getparyx
    simp only [Option.getD_none]
    rw [if_neg (by omega), if_neg (by omega)]

/-- Witness for C6_offset_rule at parent origins (2, 3), (0, 3) and a
top-level window. -/
theorem C6_offset_rule_witness :
    ((0 : Int) < 2 ∧
      onMouse [] ⟨some (2, 3)⟩ 5 7 1 1 0 [] = [] ++ [⟨0, ⟨some (2, 3)⟩, 5 + 2, 7 + 3, 1, 1, []⟩]) ∧
    ((0 : Int) ≤ 0 ∧
      onMouse [] ⟨some (0, 3)⟩ 5 7 1 1 0 [] = [] ++ [⟨0, ⟨some (0, 3)⟩, 5, 7, 1, 1, []⟩]) ∧
    onMouse [] ⟨none⟩ 5 7 1 1 0 [] = [] ++ [⟨0, ⟨none⟩, 5, 7, 1, 1, []⟩] :=
  ⟨⟨by norm_num, (C6_offset_rule [] ⟨some (2, 3)⟩ 5 7 1 1 0 []).1 2 3 rfl (by norm_num)⟩,
   ⟨le_refl 0, (C6_offset_rule [] ⟨some (0, 3)⟩ 5 7 1 1 0 []).2.1 0 3 rfl (le_refl 0)⟩,
   (C6_offset_rule [] ⟨none⟩ 5 7 1 1 0 []).2.2 rfl⟩

/-- Python exceptions distinguished by handleMouse: the curses error its
except clause catches, the unbound-local error raised when a local name is
read before assignment, and anything else. -/
inductive PyExn
  | cursesError
  | unboundLocal
  | other (id : Nat)
deriving DecidableEq

/-- Outcome of a Python call: a returned value or a propagated exception. -/
inductive PyResult (α : Type)
  | ok (a : α)
  | raise (e : PyExn)
deriving DecidableEq

/-- The value parseMouse returns (mouse.py line 67): the normalized
keystroke, the event coordinates, and the names of the windows found to
contain the point.  The decode itself (curses.getmouse plus modifier-bit
stripping) runs inside the try block of handleMouse and can raise. -/
structure Parsed where
  keystroke : Nat
  y : Int
  x : Int
  found : List Nat
deriving DecidableEq

/-- Observable outcome of handleMouse: the empty-string return when the
event was handled, the unhandled keystroke, or an escaped exception. -/
inductive HMOut
  | handled
  | keystroke (k : Nat)
  | raised (e : PyExn)
deriving DecidableEq

/-- handleMouse from mouse.py lines 78-106, as a function of its free
inputs: the pane split pct (vd.windowConfig), the active pane, the
registry, the names of the top and bottom windows, the outcome of
vd.parseMouse, and the outcome of invoking a matched command or callback.
Returns the observable outcome together with the resulting active pane.
The try block assigns r only when parseMouse returns; if parseMouse raises
the curses error, the except clause swallows it and the final
return r.keystroke reads the never-assigned local r.  A curses error
raised later (by the matched command) is also swallowed, but then r is
bound and r.keystroke is returned.  The lookup passes r.winscr, a key the
parseMouse result does not carry, which the AttrDict resolves to None; the
assignment of sheet.mouseX/mouseY mutates the sheet only and is not part
of the returned outcome. -/
def handleMouse (pct : Int) (activePane : Nat) (mousereg : List MouseReg)
    (topName botName : Nat) (parse : PyResult Parsed)
    (runMatch : MouseCmd → Nat → PyResult Unit) : HMOut × Nat :=
  match parse with
  | PyResult.raise PyExn.cursesError => (HMOut.raised PyExn.unboundLocal, activePane)
  | PyResult.raise e => (HMOut.raised e, activePane)
  | PyResult.ok r =>
      let topPaneActive := (activePane = 2 ∧ pct < 0) ∨ (activePane = 1 ∧ pct > 0)
      let bottomPaneActive := (activePane = 1 ∧ pct < 0) ∨ (activePane = 2 ∧ pct > 0)
      let flip := (bottomPaneActive ∧ topName ∈ r.found) ∨ (topPaneActive ∧ botName ∈ r.found)
      let pane2 := if flip then (if activePane = 2 then 1 else 2) else activePane
      match getMouse mousereg none r.x r.y r.keystroke with
      | some f =>
          match runMatch f r.keystroke with
          | PyResult.ok _ => (HMOut.handled, pane2)
          | PyResult.raise PyExn.cursesError => (HMOut.keystroke r.keystroke, pane2)
          | PyResult.raise e => (HMOut.raised e, pane2)
      | none => (HMOut.keystroke r.keystroke, pane2)

/-- Claim C8: when the low-level decode fails (parseMouse raises the
curses error), handleMouse does not return normally: its except clause
swallows the curses error, but the final return statement reads the local
r that was never assigned, so an unbound-local error escapes to the
caller, contrary to the claim. -/
theorem C8_decode_failure (pct : Int) (activePane : Nat) (mousereg : List MouseReg)
    (topName botName : Nat) (runMatch : MouseCmd → Nat → PyResult Unit)
    (parse : PyResult Parsed) (hp : parse = PyResult.raise PyExn.cursesError) :
    (handleMouse pct activePane mousereg topName botName parse runMatch).1 =
      HMOut.raised PyExn.unboundLocal := by
  subst hp
  rfl

/-- Witness for C8_decode_failure at a concrete state. -/
theorem C8_decode_failure_witness :
    (PyResult.raise PyExn.cursesError : PyResult Parsed) = PyResult.raise PyExn.cursesError ∧
    (handleMouse 50 1 [] 0 1 (PyResult.raise PyExn.cursesError)
      (fun _ _ => PyResult.ok ())).1 = HMOut.raised PyExn.unboundLocal :=
  ⟨rfl, C8_decode_failure 50 1 [] 0 1 (fun _ _ => PyResult.ok ()) _ rfl⟩

/-! Renderer (clipdraw, cliptext.py lines 141-232).  The external pieces
clipdraw composes — the ColorAttr value type, colors.get_color and
update_attr — are imported names in the source file; they are modelled as
an opaque four-component structure and two function parameters. -/

/-- The ColorAttr composite, constructed in clipdraw as
ColorAttr(attr, 0, 0, attr); only the .attr component is read (it is the
curses attribute passed to addstr). -/
structure ColorAttr where
  c1 : Int
  c2 : Int
  c3 : Int
  attr : Int
deriving DecidableEq

/-- The options clipstr and clipdraw read: visibility (an integer tested
for truthiness), the default truncator and odd-space substitute strings,
the ambiguous-width policy, and the debug flag. -/
structure Opts where
  visibility : Nat
  disp_truncator : List UChar
  disp_oddspace : List UChar
  disp_ambig_width : Nat
  debug : Bool

/-- The white bullet, substituted for modifier characters when visibility
is on. -/
def modSubstCh : UChar := ⟨0x25E6, EAW.A, GCat.Other, false, false⟩

/-- The dotted circle, substituted for zero-width characters when
visibility is on. -/
def combSubstCh : UChar := ⟨0x25CC, EAW.A, GCat.Other, false, false⟩

/-- clipstr from cliptext.py lines 141-154: fill in the option defaults
for the truncator and odd-space characters and pick the substitution
characters according to the visibility option.  The drawcache decorator is
semantically transparent. -/
def clipstr (opts : Opts) (s : List UChar) (dispw : Int)
    (truncator oddspace : Option (List UChar)) : List UChar × Nat :=
  if opts.visibility ≠ 0 then
    _clipstr opts.disp_ambig_width s dispw (truncator.getD opts.disp_truncator)
      (oddspace.getD opts.disp_oddspace) [combSubstCh] [modSubstCh]
  else
    _clipstr opts.disp_ambig_width s dispw (truncator.getD opts.disp_truncator)
      (oddspace.getD opts.disp_oddspace) [] []

/-- A drawing surface: parent origin (for clickable-region registration),
size as reported by getmaxyx, and which addstr calls — counted from zero
across the whole clipdraw call — raise a curses error. -/
structure DrawScr where
  par : Option (Int × Int)
  rows : Nat
  cols : Nat
  failAt : Nat → Bool

/-- World state threaded through a clipdraw call: the number of addstr
calls made so far, the log of successful writes (y, x, text, attr), and
the mouse-region registry clipdraw appends to for onclick links. -/
structure DrawSt where
  ncalls : Nat
  writes : List (Int × Int × List UChar × Int)
  mousereg : List MouseReg
deriving DecidableEq

/-- scr.addstr(y, x, text, attr): raise a curses error when the surface
fails this call, else log the write. -/
def addstr (scr : DrawScr) (st : DrawSt) (y x : Int) (text : List UChar) (a : Int) :
    PyResult DrawSt :=
  if scr.failAt st.ncalls then PyResult.raise PyExn.cursesError
  else PyResult.ok ⟨st.ncalls + 1, st.writes ++ [(y, x, text, a)], st.mousereg⟩

/-- The codes of the string onclick. -/
def onclickCodes : List Nat := [111, 110, 99, 108, 105, 99, 107]

/-- Python startswith for the onclick style-token test. -/
def startsWithOnclick (s : List UChar) : Bool :=
  (s.take 7).map (fun c => c.code) == onclickCodes

/-- The style token clickable, substituted for onclick tokens. -/
def clickableStr : List UChar :=
  [asciiCh 99, asciiCh 108, asciiCh 105, asciiCh 99, asciiCh 107,
   asciiCh 97, asciiCh 98, asciiCh 108, asciiCh 101]

/-- The keystroke identifier BUTTON1_RELEASED used for onclick regions. -/
def BUTTON1_RELEASED : Nat := 1

/-- The chunk loop of clipdraw (cliptext.py lines 180-225), threading the
running attribute, the pending link token, the cursor x, the accumulated
width and the world state.  An error result carries the exception together
with the width drawn so far and the state at the raise, which the except
clause at the clipdraw boundary consumes. -/
def clipdrawLoop (opts : Opts) (getColor : List UChar → ColorAttr)
    (updateAttr : ColorAttr → ColorAttr → Nat → ColorAttr)
    (scr : Option DrawScr) (windowWidth : Int) (y : Int) (origattr : ColorAttr)
    (origw : Option Int) (clear rtl : Bool) (truncator oddspace : Option (List UChar)) :
    List (List UChar × List UChar) → ColorAttr → List UChar → Int → Nat → DrawSt →
    Except (PyExn × Nat × DrawSt) (Nat × DrawSt)
  | [], _, _, _, totaldispw, st => Except.ok (totaldispw, st)
  | (colorname0, chunk) :: rest, cattr, link0, x, totaldispw, st =>
    let link1 := if startsWithOnclick colorname0 then colorname0 else link0
    let colorname := if startsWithOnclick colorname0 then clickableStr else colorname0
    if colorname.map (fun c => c.code) = [0x3A] then
      clipdrawLoop opts getColor updateAttr scr windowWidth y origattr origw clear rtl
        truncator oddspace rest origattr [] x totaldispw st
    else
      let cattr2 := if colorname ≠ [] then updateAttr cattr (getColor colorname) 8 else cattr
      if chunk = [] then
        clipdrawLoop opts getColor updateAttr scr windowWidth y origattr origw clear rtl
          truncator oddspace rest cattr2 link1 x totaldispw st
      else
        let chunkw0 : Int := match origw with
          | none => (dispwidth opts.disp_ambig_width chunk (some (windowWidth - totaldispw)) false : Int)
          | some w0 => w0
        let chunkw := min chunkw0 (if rtl then x - 1 else windowWidth - x - 1)
        if chunkw ≤ 0 then Except.ok (totaldispw, st)
        else
          match scr with
          | none => Except.ok (totaldispw, st)
          | some scrv =>
            let cd := clipstr opts chunk chunkw truncator oddspace
            let cont : DrawSt → Except (PyExn × Nat × DrawSt) (Nat × DrawSt) := fun st3 =>
              let st4 :=
                if link1 ≠ [] then
                  ⟨st3.ncalls, st3.writes,
                    onMouse st3.mousereg ⟨scrv.par⟩ x y (cd.2 : Int) 1 0
                      [(BUTTON1_RELEASED, MouseCmd.str link1)]⟩
                else st3
              if chunkw < (cd.2 : Int) then Except.ok (totaldispw + cd.2, st4)
              else
                clipdrawLoop opts getColor updateAttr scr windowWidth y origattr origw clear rtl
                  truncator oddspace rest cattr2 link1 (x + (cd.2 : Int)) (totaldispw + cd.2) st4
            if rtl then
              match addstr scrv st y (x - (cd.2 : Int) - 1) cd.1 cattr2.attr with
              | PyResult.raise e => Except.error (e, totaldispw, st)
              | PyResult.ok st2 => cont st2
            else if clear then
              match addstr scrv st y x (List.replicate chunkw.toNat spaceCh) cattr2.attr with
              | PyResult.raise e => Except.error (e, totaldispw, st)
              | PyResult.ok st2 =>
                match addstr scrv st2 y x cd.1 cattr2.attr with
                | PyResult.raise e => Except.error (e, totaldispw, st2)
                | PyResult.ok st3 => cont st3
            else
              match addstr scrv st y x cd.1 cattr2.attr with
              | PyResult.raise e => Except.error (e, totaldispw, st)
              | PyResult.ok st2 => cont st2

/-- The try block of clipdraw (cliptext.py lines 163-225): window width
from the surface (80 without one), promotion of a bare integer attribute
to a ColorAttr, then the chunk loop over the segmented string. -/
def clipdrawBody (opts : Opts) (getColor : List UChar → ColorAttr)
    (updateAttr : ColorAttr → ColorAttr → Nat → ColorAttr)
    (scr : Option DrawScr) (y x : Int) (s : List UChar) (attr : Sum Int ColorAttr)
    (w : Option Int) (clear rtl literal : Bool) (truncator oddspace : Option (List UChar))
    (st0 : DrawSt) : Except (PyExn × Nat × DrawSt) (Nat × DrawSt) :=
  let windowWidth : Int := match scr with
    | some sc => (sc.cols : Int)
    | none => 80
  let cattr : ColorAttr := match attr with
    | Sum.inl a => ⟨a, 0, 0, a⟩
    | Sum.inr ca => ca
  clipdrawLoop opts getColor updateAttr scr windowWidth y cattr w clear rtl
    truncator oddspace (iterchunks s literal) cattr [] x 0 st0

/-- clipdraw from cliptext.py lines 156-232: run the try block; on an
exception, re-raise when the debug option is set, else swallow it and
return the width drawn so far. -/
def clipdraw (opts : Opts) (getColor : List UChar → ColorAttr)
    (updateAttr : ColorAttr → ColorAttr → Nat → ColorAttr)
    (scr : Option DrawScr) (y x : Int) (s : List UChar) (attr : Sum Int ColorAttr)
    (w : Option Int) (clear rtl literal : Bool) (truncator oddspace : Option (List UChar))
    (st0 : DrawSt) : PyResult (Nat × DrawSt) :=
  match clipdrawBody opts getColor updateAttr scr y x s attr w clear rtl literal
      truncator oddspace st0 with
  | Except.ok r => PyResult.ok r
  | Except.error (e, tw, st) => if opts.debug then PyResult.raise e else PyResult.ok (tw, st)

/-- Claim C9: clipdraw never lets a drawing error escape when the debug
option is off — it returns normally with the width drawn so far — and when
the try block raises, the exact width accumulated before the failing write
is returned with debug off, while with debug on the same error propagates
to the caller. -/
theorem C9_draw_error_policy (opts : Opts) (getColor : List UChar → ColorAttr)
    (updateAttr : ColorAttr → ColorAttr → Nat → ColorAttr)
    (scr : Option DrawScr) (y x : Int) (s : List UChar) (attr : Sum Int ColorAttr)
    (w : Option Int) (clear rtl literal : Bool) (truncator oddspace : Option (List UChar))
    (st0 : DrawSt) :
    (opts.debug = false → ∃ r, clipdraw opts getColor updateAttr scr y x s attr w clear rtl
        literal truncator oddspace st0 = PyResult.ok r) ∧
    (∀ e tw st, clipdrawBody opts getColor updateAttr scr y x s attr w clear rtl literal
        truncator oddspace st0 = Except.error (e, tw, st) →
      (opts.debug = false → clipdraw opts getColor updateAttr scr y x s attr w clear rtl
          literal truncator oddspace st0 = PyResult.ok (tw, st)) ∧
      (opts.debug = true → clipdraw opts getColor updateAttr scr y x s attr w clear rtl
          literal truncator oddspace st0 = PyResult.raise e)) := by
  constructor
  · intro hd
    cases hb : clipdrawBody opts getColor updateAttr scr y x s attr w clear rtl literal
        truncator oddspace st0 with
    | ok p =>
      exact ⟨p, by unfold clipdraw; rw [hb]⟩
    | error q =>
      obtain ⟨e, tw, st⟩ := q
      exact ⟨(tw, st), by unfold clipdraw; rw [hb]; simp [hd]⟩
  · intro e tw st hb
    constructor <;> intro hd <;> (unfold clipdraw; rw [hb]; simp [hd])

/-- The options used by the C9 witness, with debug off and debug on. -/
def optsPlain : Opts := ⟨0, [ellipsisCh], [⟨0xB7, EAW.A, GCat.Other, false, false⟩], 1, false⟩

def optsDebug : Opts := ⟨0, [ellipsisCh], [⟨0xB7, EAW.A, GCat.Other, false, false⟩], 1, true⟩

/-- A surface whose second addstr call fails. -/
def scrFail1 : DrawScr := ⟨none, 25, 80, fun n => n == 1⟩

/-- The styled string ab marker-red cd. -/
def c9Str : List UChar :=
  [asciiCh 97, asciiCh 98,
   asciiCh 0x5B, asciiCh 0x3A, asciiCh 114, asciiCh 101, asciiCh 100, asciiCh 0x5D,
   asciiCh 99, asciiCh 100]

/-- Witness for C9_draw_error_policy: drawing ab marker cd without
clearing on a surface whose second write fails draws ab (width 2), then
fails on cd; with debug off clipdraw returns the width 2 drawn so far and
the state holding the one successful write, with debug on the curses error
propagates. -/
theorem C9_draw_error_policy_witness :
    clipdrawBody optsPlain (fun _ => ⟨0, 0, 0, 0⟩) (fun c _ _ => c) (some scrFail1) 0 0
        c9Str (Sum.inl 0) none false false false none none ⟨0, [], []⟩
      = Except.error (PyExn.cursesError, 2, ⟨1, [(0, 0, [asciiCh 97, asciiCh 98], 0)], []⟩) ∧
    clipdraw optsPlain (fun _ => ⟨0, 0, 0, 0⟩) (fun c _ _ => c) (some scrFail1) 0 0
        c9Str (Sum.inl 0) none false false false none none ⟨0, [], []⟩
      = PyResult.ok (2, ⟨1, [(0, 0, [asciiCh 97, asciiCh 98], 0)], []⟩) ∧
    clipdraw optsDebug (fun _ => ⟨0, 0, 0, 0⟩) (fun c _ _ => c) (some scrFail1) 0 0
        c9Str (Sum.inl 0) none false false false none none ⟨0, [], []⟩
      = PyResult.raise PyExn.cursesError :=
  ⟨rfl,
   ((C9_draw_error_policy optsPlain (fun _ => ⟨0, 0, 0, 0⟩) (fun c _ _ => c) (some scrFail1) 0 0
      c9Str (Sum.inl 0) none false false false none none ⟨0, [], []⟩).2
      PyExn.cursesError 2 ⟨1, [(0, 0, [asciiCh 97, asciiCh 98], 0)], []⟩ rfl).1 rfl,
   ((C9_draw_error_policy optsDebug (fun _ => ⟨0, 0, 0, 0⟩) (fun c _ _ => c) (some scrFail1) 0 0
      c9Str (Sum.inl 0) none false false false none none ⟨0, [], []⟩).2
      PyExn.cursesError 2 ⟨1, [(0, 0, [asciiCh 97, asciiCh 98], 0)], []⟩ rfl).2 rfl⟩

/-! Word-wrapper (wraptext, cliptext.py lines 235-282): the markdown
preprocessing pass, a model of the stdlib wrapper it calls, and the
marker-preserving reassembly loop. -/

/-- A style marker built from a style name: opening bracket, colon, the
name, closing bracket. -/
def markerOf (name : List UChar) : List UChar :=
  [asciiCh 0x5B, asciiCh 0x3A] ++ name ++ [asciiCh 0x5D]

/-- The reset marker. -/
def resetMarker : List UChar := [asciiCh 0x5B, asciiCh 0x3A, asciiCh 0x5D]

/-- Find the first closing occurrence of a one-character delimiter, with
no newline before it (the regex dot does not cross newlines): characters
before it and characters after it. -/
def findDelim (d : Nat) : List UChar → Option (List UChar × List UChar)
  | [] => none
  | c :: cs =>
    if c.code = d then some ([], cs)
    else if c.code = 10 then none
    else
      match findDelim d cs with
      | none => none
      | some (mid, rest) => some (c :: mid, rest)

/-- Head-of-list code test. -/
def headIs (d : Nat) : List UChar → Bool
  | c :: _ => c.code == d
  | [] => false

/-- Find the first closing occurrence of a doubled delimiter, with no
newline before it. -/
def findDelim2 (d : Nat) : List UChar → Option (List UChar × List UChar)
  | [] => none
  | c :: cs =>
    if c.code = d ∧ headIs d cs then some ([], cs.drop 1)
    else if c.code = 10 then none
    else
      match findDelim2 d cs with
      | none => none
      | some (mid, rest) => some (c :: mid, rest)

/-- re.sub of a lazy one-character-delimited group (the backtick and
single-asterisk rules of _markdown_to_internal): at the first delimiter
with a closing delimiter in reach, replace the pair by marker, text, reset
and resume after the match; otherwise emit the character and move on,
exactly as the regex engine advances its start position.  The fuel bounds
the recursion depth; the input length suffices since every step consumes
at least one character. -/
def subSingleAux (d : Nat) (name : List UChar) : Nat → List UChar → List UChar
  | 0, s => s
  | _ + 1, [] => []
  | f + 1, c :: cs =>
    if c.code = d then
      match findDelim d cs with
      | some (mid, rest) =>
          markerOf name ++ mid ++ resetMarker ++ subSingleAux d name f rest
      | none => c :: subSingleAux d name f cs
    else c :: subSingleAux d name f cs

def subSingle (d : Nat) (name : List UChar) (s : List UChar) : List UChar :=
  subSingleAux d name s.length s

/-- re.sub of the lazy double-asterisk rule, same advancing discipline. -/
def subDoubleAux (d : Nat) (name : List UChar) : Nat → List UChar → List UChar
  | 0, s => s
  | _ + 1, [] => []
  | f + 1, c :: cs =>
    if c.code = d ∧ headIs d cs then
      match findDelim2 d (cs.drop 1) with
      | some (mid, rest) =>
          markerOf name ++ mid ++ resetMarker ++ subDoubleAux d name f rest
      | none => c :: subDoubleAux d name f cs
    else c :: subDoubleAux d name f cs

def subDouble (d : Nat) (name : List UChar) (s : List UChar) : List UChar :=
  subDoubleAux d name s.length s

/-- Python word characters, for the word-boundary assertions of the
underscore rule. -/
def isWordCh (c : UChar) : Bool :=
  (48 ≤ c.code && c.code ≤ 57) || (65 ≤ c.code && c.code ≤ 90) ||
  (97 ≤ c.code && c.code ≤ 122) || c.code == 95

/-- A word boundary follows: end of string or a non-word character. -/
def boundaryAfter : List UChar → Bool
  | [] => true
  | c :: _ => ! isWordCh c

/-- Find the first closing underscore that is followed by a word
boundary, with no newline before it. -/
def findUnder : List UChar → Option (List UChar × List UChar)
  | [] => none
  | c :: cs =>
    if c.code = 95 ∧ boundaryAfter cs then some ([], cs)
    else if c.code = 10 then none
    else
      match findUnder cs with
      | none => none
      | some (mid, rest) => some (c :: mid, rest)

/-- re.sub of the underscore rule with its surrounding word-boundary
assertions; the previous character of the original string is threaded for
the boundary before the opening underscore (an underscore is itself a word
character, so after a replacement the closing underscore stands as the
previous character). -/
def subUnderAux (name : List UChar) : Nat → Option UChar → List UChar → List UChar
  | 0, _, s => s
  | _ + 1, _, [] => []
  | f + 1, prev, c :: cs =>
    let okBefore := match prev with
      | none => true
      | some p => ! isWordCh p
    if c.code = 95 ∧ okBefore = true then
      match findUnder cs with
      | some (mid, rest) =>
          markerOf name ++ mid ++ resetMarker ++ subUnderAux name f (some c) rest
      | none => c :: subUnderAux name f (some c) cs
    else c :: subUnderAux name f (some c) cs

def subUnder (name : List UChar) (s : List UChar) : List UChar :=
  subUnderAux name s.length none s

/-- The style names code, bold, italic, underline. -/
def codeName : List UChar := [asciiCh 99, asciiCh 111, asciiCh 100, asciiCh 101]

def boldName : List UChar := [asciiCh 98, asciiCh 111, asciiCh 108, asciiCh 100]

def italicName : List UChar :=
  [asciiCh 105, asciiCh 116, asciiCh 97, asciiCh 108, asciiCh 105, asciiCh 99]

def underlineName : List UChar :=
  [asciiCh 117, asciiCh 110, asciiCh 100, asciiCh 101, asciiCh 114,
   asciiCh 108, asciiCh 105, asciiCh 110, asciiCh 101]

/-- _markdown_to_internal from cliptext.py lines 235-241: the four re.sub
passes in order (backtick code, double-asterisk bold, single-asterisk
italic, boundary-underscore underline). -/
def _markdown_to_internal (text : List UChar) : List UChar :=
  subUnder underlineName
    (subSingle 0x2A italicName
      (subDouble 0x2A boldName
        (subSingle 0x60 codeName text)))

/-- Modelled from the spec: the word-wrap backend wraptext delegates to is
the stdlib wrapper, absent from the sample, which the spec pins down as
whitespace-preserving greedy wrapping that drops no whitespace when
folding.  The model follows the stdlib algorithm for that configuration:
whitespace munging (tab expansion, then whitespace-to-space translation),
chunking into alternating whitespace and word runs, greedy line filling,
and breaking a word longer than a whole line at the line boundary.  The
stdlib refinement of preferring a hyphen as the break point inside an
overlong word moves break positions only and is not modelled; a
non-positive width, a ValueError in the stdlib, yields no lines here. -/
def isWrapSpace (c : UChar) : Bool :=
  [0x20, 0x09, 0x0A, 0x0D, 0x0B, 0x0C, 0xA0].contains c.code

/-- str.expandtabs with tab size 8: a tab becomes spaces up to the next
multiple of eight, the column resets on line-break characters. -/
def expandtabs : Nat → List UChar → List UChar
  | _, [] => []
  | col, c :: cs =>
    if c.code = 9 then
      List.replicate (8 - col % 8) spaceCh ++ expandtabs (col + (8 - col % 8)) cs
    else if c.code = 10 ∨ c.code = 13 then c :: expandtabs 0 cs
    else c :: expandtabs (col + 1) cs

/-- The whitespace munging of the stdlib wrapper: expand tabs, then map
the five core whitespace characters to the plain space. -/
def mungeWS (s : List UChar) : List UChar :=
  (expandtabs 0 s).map fun c =>
    if c.code ∈ [9, 10, 11, 12, 13] then spaceCh else c

/-- Split into maximal runs of whitespace and of non-whitespace. -/
def chunkify : List UChar → List (List UChar)
  | [] => []
  | c :: cs =>
    match chunkify cs with
    | [] => [[c]]
    | [] :: rest => [c] :: rest
    | (d :: ds) :: rest =>
      if isWrapSpace c == isWrapSpace d then (c :: d :: ds) :: rest
      else [c] :: (d :: ds) :: rest

/-- Fill one output line greedily: take whole chunks while they fit; stop
at a chunk that does not fit, breaking it at the line boundary when it is
longer than a whole line and room remains. -/
def fillLine (width : Nat) : Nat → List (List UChar) → List UChar × List (List UChar)
  | _, [] => ([], [])
  | curlen, ch :: rest =>
    if ch.length + curlen ≤ width then
      let p := fillLine width (curlen + ch.length) rest
      (ch ++ p.1, p.2)
    else if width ≤ curlen ∨ ch.length ≤ width then ([], ch :: rest)
    else (ch.take (width - curlen), ch.drop (width - curlen) :: rest)

/-- Repeat line filling until the chunks are exhausted; the fuel strictly
exceeds the total character count, which bounds the number of lines. -/
def wrapAll (width : Nat) : Nat → List (List UChar) → List (List UChar)
  | _, [] => []
  | 0, _ :: _ => []
  | f + 1, c :: cs =>
    let p := fillLine width 0 (c :: cs)
    p.1 :: wrapAll width f p.2

/-- The call textwrap.wrap(text, width=width, drop_whitespace=False) of
wraptext. -/
def textwrapWrap (width : Nat) (text : List UChar) : List (List UChar) :=
  if width = 0 then []
  else wrapAll width ((mungeWS text).length + 1) (chunkify (mungeWS text))

/-- str.splitlines: accumulate characters up to each line-break character
(carriage-return line-feed counts once); no trailing empty line for a
trailing break. -/
def isLineBreak (c : UChar) : Bool :=
  [10, 13, 11, 12, 0x1C, 0x1D, 0x1E, 0x85, 0x2028, 0x2029].contains c.code

def splitlinesAux : List UChar → List UChar → List (List UChar)
  | [], acc => if acc = [] then [] else [acc]
  | c :: cs, acc =>
    if isLineBreak c then
      acc ::
        (match cs with
         | [] => []
         | c2 :: cs2 =>
           if c.code = 13 ∧ c2.code = 10 then splitlinesAux cs2 []
           else splitlinesAux (c2 :: cs2) [])
    else splitlinesAux cs (acc ++ [c])

def splitlines (s : List UChar) : List (List UChar) :=
  splitlinesAux s []

/-- The inner while loop of wraptext (cliptext.py lines 262-275):
consume chunks against the wrapped plain line txt, building the styled
line r; a chunk longer than the remaining txt is split in place, a final
chunk is flushed whole, otherwise the text chunk and the following marker
chunk are consumed together. -/
def reassemble : List (List UChar) → List UChar → List UChar →
    List UChar × List (List UChar)
  | [], _, r => (r, [])
  | c :: rest, txt, r =>
    if txt.length < c.length then (r ++ txt, c.drop txt.length :: rest)
    else
      match rest with
      | [] => (r ++ c, [])
      | m :: rest2 => reassemble rest2 (txt.drop c.length) (r ++ txt.take c.length ++ m)

/-- The for loop over the wrapped plain lines (cliptext.py lines 259-279),
threading the remaining chunks; every line after the first is prefixed
with the indent.  Returns the (styled, plain) pairs and the leftover
chunks. -/
def wrapLines (indent : List UChar) :
    List (List UChar) → List (List UChar) → Nat →
    List (List UChar × List UChar) × List (List UChar)
  | [], chunks, _ => ([], chunks)
  | tl :: tls, chunks, n =>
    let p := reassemble chunks tl []
    let r := if n > 0 then indent ++ p.1 else p.1
    let q := wrapLines indent tls p.2 (n + 1)
    ((r, tl) :: q.1, q.2)

/-- One input line of wraptext (cliptext.py lines 251-282): an empty line
yields one empty pair; otherwise apply the markdown pass, split on
markers, word-wrap the concatenated non-marker chunks, reassemble the
styled lines, and flush leftover chunks as marker-only pairs. -/
def wraptextLine (width : Nat) (indent : List UChar) (line : List UChar) :
    List (List UChar × List UChar) :=
  if line = [] then [([], [])]
  else
    let mline := _markdown_to_internal line
    let chunks := splitMarkup mline
    let textchunks := chunks.filter fun x => ! markerShaped x
    let wrapped := textwrapWrap width textchunks.flatten
    let q := wrapLines indent wrapped chunks 0
    q.1 ++ q.2.map fun c => (c, ([] : List UChar))

/-- wraptext from cliptext.py lines 244-282. -/
def wraptext (text : List UChar) (width : Nat) (indent : List UChar) :
    List (List UChar × List UChar) :=
  ((splitlines text).map (wraptextLine width indent)).flatten

/-- The text of a line with all style markers removed: the concatenation
of the non-marker pieces of the marker split, the formalization the
claim's plainLine round-trip is stated against. -/
def stripMarkers (s : List UChar) : List UChar :=
  ((splitMarkup s).filter fun x => ! markerShaped x).flatten

/-- Characters that survive the wrap pipeline unchanged: not tabs, not
whitespace the stdlib munging rewrites, not line-break characters. -/
def plainTextCh (c : UChar) : Bool :=
  ! ([9, 10, 11, 12, 13, 0x1C, 0x1D, 0x1E, 0x85, 0x2028, 0x2029].contains c.code)

theorem plainTextCh_spec (c : UChar) (h : plainTextCh c = true) :
    c.code ≠ 9 ∧ ¬ (c.code ∈ ([9, 10, 11, 12, 13] : List Nat)) ∧ isLineBreak c = false := by
  unfold plainTextCh at h
  unfold isLineBreak
  simp at h ⊢
  omega

theorem expandtabs_id (t : List UChar) (h : ∀ c ∈ t, c.code ≠ 9) :
    ∀ col, expandtabs col t = t := by
  induction t with
  | nil => intro col; rfl
  | cons c cs ih =>
    intro col
    rw [expandtabs]
    rw [if_neg (h c (by simp))]
    by_cases hb : c.code = 10 ∨ c.code = 13
    · rw [if_pos hb, ih (fun d hd => h d (by simp [hd])) 0]
    · rw [if_neg hb, ih (fun d hd => h d (by simp [hd])) (col + 1)]

theorem mungeWS_id (t : List UChar) (h : ∀ c ∈ t, plainTextCh c = true) :
    mungeWS t = t := by
  unfold mungeWS
  rw [expandtabs_id t (fun c hc => (plainTextCh_spec c (h c hc)).1) 0]
  have hmap : ∀ c ∈ t,
      (if c.code ∈ ([9, 10, 11, 12, 13] : List Nat) then spaceCh else c) = c :=
    fun c hc => if_neg ((plainTextCh_spec c (h c hc)).2.1)
  rw [List.map_congr_left hmap]
  simp

theorem chunkify_flatten (s : List UChar) : (chunkify s).flatten = s := by
  induction s with
  | nil => rfl
  | cons c cs ih =>
    rw [chunkify]
    cases hch : chunkify cs with
    | nil =>
      rw [hch] at ih
      simp at ih
      simp [← ih]
    | cons d0 rest =>
      rw [hch] at ih
      cases d0 with
      | nil =>
        simp only [List.flatten_cons, List.nil_append] at ih
        simp [ih]
      | cons e es =>
        dsimp only
        by_cases he : isWrapSpace c == isWrapSpace e
        · rw [if_pos he]
          simp only [List.flatten_cons] at ih ⊢
          simp [ih]
        · rw [if_neg he]
          simp only [List.flatten_cons] at ih ⊢
          simp [ih]

theorem chunkify_nonempty (s : List UChar) : ∀ ch ∈ chunkify s, ch ≠ [] := by
  induction s with
  | nil => intro ch hch; simp [chunkify] at hch
  | cons c cs ih =>
    intro ch hch
    rw [chunkify] at hch
    cases hck : chunkify cs with
    | nil =>
      rw [hck] at hch
      simp at hch
      simp [hch]
    | cons d0 rest =>
      rw [hck] at hch
      cases d0 with
      | nil =>
        simp at hch
        cases hch with
        | inl h0 => simp [h0]
        | inr h0 => exact ih ch (by rw [hck]; simp [h0])
      | cons e es =>
        dsimp only at hch
        by_cases he : isWrapSpace c == isWrapSpace e
        · rw [if_pos he] at hch
          simp at hch
          cases hch with
          | inl h0 => simp [h0]
          | inr h0 => exact ih ch (by rw [hck]; simp [h0])
        · rw [if_neg he] at hch
          simp at hch
          cases hch with
          | inl h0 => simp [h0]
          | inr h0 =>
            cases h0 with
            | inl h3 => simp [h3]
            | inr h3 => exact ih ch (by rw [hck]; simp [h3])

theorem fillLine_partition (width : Nat) :
    ∀ (chunks : List (List UChar)) (curlen : Nat),
    (fillLine width curlen chunks).1 ++ ((fillLine width curlen chunks).2).flatten =
      chunks.flatten := by
  intro chunks
  induction chunks with
  | nil => intro curlen; simp [fillLine]
  | cons ch rest ih =>
    intro curlen
    rw [fillLine]
    by_cases h1 : ch.length + curlen ≤ width
    · rw [if_pos h1]
      dsimp only
      simp only [List.flatten_cons, List.append_assoc]
      rw [ih (curlen + ch.length)]
    · rw [if_neg h1]
      by_cases h2 : width ≤ curlen ∨ ch.length ≤ width
      · rw [if_pos h2]; simp
      · rw [if_neg h2]
        simp only [List.flatten_cons]
        rw [← List.append_assoc, List.take_append_drop]

theorem fillLine_nonempty (width : Nat) :
    ∀ (chunks : List (List UChar)) (curlen : Nat), (∀ ch ∈ chunks, ch ≠ []) →
    ∀ ch ∈ (fillLine width curlen chunks).2, ch ≠ [] := by
  intro chunks
  induction chunks with
  | nil => intro curlen hne ch hch; simp [fillLine] at hch
  | cons c rest ih =>
    intro curlen hne ch hch
    rw [fillLine] at hch
    by_cases h1 : c.length + curlen ≤ width
    · rw [if_pos h1] at hch
      exact ih (curlen + c.length) (fun d hd => hne d (by simp [hd])) ch hch
    · rw [if_neg h1] at hch
      by_cases h2 : width ≤ curlen ∨ c.length ≤ width
      · rw [if_pos h2] at hch
        exact hne ch hch
      · rw [if_neg h2] at hch
        simp at hch
        cases hch with
        | inl h0 =>
          have hlen : (c.drop (width - curlen)).length = c.length - (width - curlen) :=
            List.length_drop _ _
          intro hcon
          rw [← h0, hcon] at hlen
          simp at hlen
          omega
        | inr h0 => exact hne ch (by simp [h0])

theorem fillLine_progress (width : Nat) (hw : 1 ≤ width) :
    ∀ (c : List UChar) (cs : List (List UChar)), c ≠ [] →
    (fillLine width 0 (c :: cs)).1 ≠ [] := by
  intro c cs hc
  rw [fillLine]
  by_cases h1 : c.length + 0 ≤ width
  · rw [if_pos h1]
    simp [hc]
  · rw [if_neg h1]
    by_cases h2 : width ≤ 0 ∨ c.length ≤ width
    · exact absurd h2 (by omega)
    · rw [if_neg h2]
      intro hcon
      rw [List.take_eq_nil_iff] at hcon
      rcases hcon with h3 | h3 <;> first | omega | exact hc h3

theorem wrapAll_flatten (width : Nat) (hw : 1 ≤ width) :
    ∀ (fuel : Nat) (chunks : List (List UChar)), (∀ ch ∈ chunks, ch ≠ []) →
    chunks.flatten.length < fuel →
    (wrapAll width fuel chunks).flatten = chunks.flatten := by
  intro fuel
  induction fuel with
  | zero =>
    intro chunks hne hlen
    cases chunks with
    | nil => rfl
    | cons c cs => omega
  | succ f ih =>
    intro chunks hne hlen
    cases chunks with
    | nil => rfl
    | cons c cs =>
      rw [wrapAll]
      have hpart := fillLine_partition width (c :: cs) 0
      have hprog := fillLine_progress width hw c cs (hne c (by simp))
      have hne2 := fillLine_nonempty width (c :: cs) 0 hne
      have hlen2 := congrArg List.length hpart
      simp only [List.length_append] at hlen2
      simp only [List.flatten_cons]
      rw [ih (fillLine width 0 (c :: cs)).2 hne2 (by
        have hp1 : 1 ≤ (fillLine width 0 (c :: cs)).1.length := by
          cases hfl : (fillLine width 0 (c :: cs)).1 with
          | nil => exact absurd hfl hprog
          | cons a b => simp
        omega)]
      exact hpart

theorem textwrapWrap_flatten (width : Nat) (hw : 1 ≤ width) (t : List UChar) :
    (textwrapWrap width t).flatten = mungeWS t := by
  unfold textwrapWrap
  rw [if_neg (by omega)]
  rw [wrapAll_flatten width hw ((mungeWS t).length + 1) (chunkify (mungeWS t))
    (chunkify_nonempty (mungeWS t)) (by rw [chunkify_flatten]; omega)]
  exact chunkify_flatten (mungeWS t)

theorem splitlinesAux_nobreak : ∀ (s acc : List UChar),
    (∀ c ∈ s, isLineBreak c = false) → acc ++ s ≠ [] →
    splitlinesAux s acc = [acc ++ s] := by
  intro s
  induction s with
  | nil =>
    intro acc hbr hne
    have he : splitlinesAux [] acc = if acc = [] then [] else [acc] := rfl
    rw [he, if_neg (by simpa using hne)]
    simp
  | cons c cs ih =>
    intro acc hbr hne
    rw [splitlinesAux.eq_def]
    dsimp only
    rw [if_neg (by simp [hbr c (by simp)])]
    rw [ih (acc ++ [c]) (fun d hd => hbr d (by simp [hd])) (by simp)]
    simp

theorem splitlines_single (s : List UChar) (hne : s ≠ [])
    (hbr : ∀ c ∈ s, isLineBreak c = false) : splitlines s = [s] := by
  unfold splitlines
  rw [splitlinesAux_nobreak s [] hbr (by simpa using hne)]
  simp

theorem wrapLines_snds (indent : List UChar) :
    ∀ (tls chunks : List (List UChar)) (n : Nat),
    ((wrapLines indent tls chunks n).1).map (fun p => p.2) = tls := by
  intro tls
  induction tls with
  | nil => intro chunks n; rfl
  | cons tl tls ih =>
    intro chunks n
    rw [wrapLines]
    dsimp only
    simp only [List.map_cons]
    rw [ih]

theorem flatten_map_nil (l : List (List UChar)) :
    (((l.map fun c => (c, ([] : List UChar))).map fun p => p.2)).flatten = [] := by
  induction l with
  | nil => rfl
  | cons c cs ih => simp [ih]

/-- Claim C7 (counterexample): for the line star-a-star at width 80, the
concatenated plainLine components are the single character a, while the
line's text with all style markers removed is star-a-star itself (it
contains no markers): wraptext first rewrites the markdown asterisks into
an italic span, so the plain text reproduces the markdown-converted line,
not the original line. -/
theorem C7_counterexample :
    ((wraptext [asciiCh 42, asciiCh 97, asciiCh 42] 80 []).map fun p => p.2).flatten ≠
      stripMarkers [asciiCh 42, asciiCh 97, asciiCh 42] := by
  decide

/-- Claim C7 (amended): for every single input line (no line-break
characters) whose characters — before and after the markdown pass — are
free of tab and whitespace characters that the wrapper rewrites, and every
positive wrap width, concatenating the plainLine components of all pairs
wraptext yields reproduces exactly the markdown-converted line's text with
all style markers removed. -/
theorem C7_plain_roundtrip (text : List UChar) (width : Nat) (indent : List UChar)
    (hw : 1 ≤ width)
    (h1 : ∀ c ∈ text, plainTextCh c = true)
    (h2 : ∀ c ∈ _markdown_to_internal text, plainTextCh c = true) :
    ((wraptext text width indent).map fun p => p.2).flatten =
      stripMarkers (_markdown_to_internal text) := by
  by_cases ht : text = []
  · subst ht; rfl
  · unfold wraptext
    rw [splitlines_single text ht (fun c hc => (plainTextCh_spec c (h1 c hc)).2.2)]
    simp only [List.map_cons, List.map_nil, List.flatten_cons, List.flatten_nil,
      List.append_nil]
    unfold wraptextLine
    rw [if_neg ht]
    dsimp only
    simp only [List.map_append, List.flatten_append, flatten_map_nil, List.append_nil]
    rw [wrapLines_snds]
    rw [textwrapWrap_flatten width hw]
    have hmem : ∀ c ∈ ((splitMarkup (_markdown_to_internal text)).filter
        fun x => ! markerShaped x).flatten, plainTextCh c = true := by
      intro c hc
      apply h2
      rw [← splitMarkup_join (_markdown_to_internal text)]
      rw [List.mem_flatten] at hc ⊢
      obtain ⟨ch, hch, hcch⟩ := hc
      exact ⟨ch, List.mem_of_mem_filter hch, hcch⟩
    rw [mungeWS_id _ hmem]
    rfl

/-- The line ab star-c-star d. -/
def c7Str : List UChar :=
  [asciiCh 97, asciiCh 98, spaceCh, asciiCh 42, asciiCh 99, asciiCh 42,
   spaceCh, asciiCh 100]

/-- Witness for C7_plain_roundtrip: the line ab star-c-star d wrapped at
width 3 with a one-space indent. -/
theorem C7_plain_roundtrip_witness :
    (1 : Nat) ≤ 3 ∧
    (∀ c ∈ c7Str, plainTextCh c = true) ∧
    (∀ c ∈ _markdown_to_internal c7Str, plainTextCh c = true) ∧
    ((wraptext c7Str 3 [spaceCh]).map fun p => p.2).flatten =
      stripMarkers (_markdown_to_internal c7Str) :=
  ⟨by norm_num, by decide, by decide,
   C7_plain_roundtrip c7Str 3 [spaceCh] (by norm_num) (by decide) (by decide)⟩

end VisiData
